import Mathlib

/-!
Verification of the `git log` virtual-table module (planner/cursor bridge).

The development shallowly embeds the Go source of the module:
`BestIndex` (index planner), the constraint codec, `Filter` (cursor setup),
`Next`/`Eof` (cursor advance), together with an abstract environment for the
external git collaborators (repository locator, revision resolution,
mailmap parsing, timestamp parsing).
-/

namespace GitLog

/-! ## SQLite constraint-operator constants (go.riyazali.net/sqlite) -/

def INDEX_CONSTRAINT_EQ : Nat := 2
def INDEX_CONSTRAINT_GT : Nat := 4
def INDEX_CONSTRAINT_LE : Nat := 8
def INDEX_CONSTRAINT_LT : Nat := 16
def INDEX_CONSTRAINT_GE : Nat := 32

/-! ## Planner input/output structures (sqlite.IndexInfoInput / IndexInfoOutput) -/

/-- One entry of `input.Constraints`: a column index, a comparison operator,
and whether the constraint is usable in the current join context. -/
structure IndexConstraint where
  columnIndex : Int
  op : Nat
  usable : Bool
deriving DecidableEq, Repr

/-- One entry of `input.OrderBy`. -/
structure OrderBy where
  columnIndex : Int
  desc : Bool
deriving DecidableEq, Repr

structure IndexInfoInput where
  constraints : List IndexConstraint
  orderBy : List OrderBy
deriving DecidableEq, Repr

/-- `sqlite.ConstraintUsage`: the 1-based argv slot assigned to a constraint,
and whether SQLite may omit its own re-check of the constraint. -/
structure ConstraintUsage where
  argvIndex : Nat
  omitFlag : Bool
deriving DecidableEq, Repr

/-! ## Constraint codec -/

/-- `set`'s byte packing: `byte(op<<4|col)` with role in the high nibble and
column index in the low nibble (truncated to one byte, as Go's `byte(...)`). -/
def packTag (role col : Nat) : Nat := ((role <<< 4) ||| col) % 256

/-- Modelled from the spec: the Constraint Codec's `enc` function is not
present under src/ (only its callers are). The spec fixes only that the token
is an engine-opaque string and that decode is the exact inverse of encode
("any serialization (raw bytes, hex, base64) is acceptable"); we model the
token as the byte sequence of a lowercase-hex serialization. One hex digit. -/
def hexDig (n : Nat) : Nat := if n < 10 then 48 + n else 87 + n

/-- Modelled from the spec: inverse of `hexDig` on a single byte of the token. -/
def unhexDig (c : Nat) : Option Nat :=
  if 48 ≤ c ∧ c ≤ 57 then some (c - 48)
  else if 97 ≤ c ∧ c ≤ 102 then some (c - 87)
  else none

/-- Modelled from the spec: `enc(bitmap)` serializes each bitmap byte as two
hex digits. -/
def enc (bs : List Nat) : List Nat :=
  bs.flatMap (fun b => [hexDig (b / 16), hexDig (b % 16)])

/-- Modelled from the spec: `dec(s)` parses the token back into the bitmap;
`none` models the error return for a malformed token. -/
def dec : List Nat → Option (List Nat)
  | [] => some []
  | [_] => none
  | c1 :: c2 :: rest =>
    match unhexDig c1, unhexDig c2, dec rest with
    | some h, some l, some tl => some ((h * 16 + l) :: tl)
    | _, _, _ => none

/-- `var bitmap, _ = dec(s)` in `Filter`: the decode error is discarded and
the byte slice (empty on failure) is used directly. -/
def decD (s : List Nat) : List Nat := (dec s).getD []

/-! ## BestIndex -/

/-- The loop state of `BestIndex`: the pro-actively incremented `argv`
counter, the bitmap under construction, the `ConstraintUsage` entries filled
so far, the cost/rows estimate (`none` = host default, not overridden), and
the `INDEX_SCAN_UNIQUE` flag. -/
structure BIAcc where
  argv : Nat
  bitmap : List Nat
  usage : List (Option ConstraintUsage)
  est : Option (Nat × Nat)
  uniqueFlag : Bool
deriving DecidableEq, Repr

/-- One iteration of the `BestIndex` constraint loop.
`.error ()` models `return nil, sqlite.SQLITE_CONSTRAINT`. -/
def bestIndexStep (s : BIAcc) (c : IndexConstraint) : Except Unit BIAcc :=
  -- if hash is provided, it must be usable
  if c.columnIndex = 0 ∧ c.usable = false then .error ()
  -- if repository is provided, it must be usable
  else if c.columnIndex = 9 ∧ c.usable = false then .error ()
  else if c.usable = false then .ok { s with usage := s.usage ++ [none] }
  else
    let argv := s.argv + 1
    if c.columnIndex = 0 ∧ c.op = INDEX_CONSTRAINT_EQ then
      .ok { argv := argv
            bitmap := s.bitmap ++ [packTag 1 0]
            usage := s.usage ++ [some ⟨argv, false⟩]
            est := some (1, 1)
            uniqueFlag := true }
    else if (c.columnIndex = 9 ∨ c.columnIndex = 10) ∧ c.op = INDEX_CONSTRAINT_EQ then
      .ok { s with argv := argv
                   bitmap := s.bitmap ++ [packTag 1 (if c.columnIndex = 9 then 9 else 10)]
                   usage := s.usage ++ [some ⟨argv, true⟩] }
    else if c.columnIndex = 7 ∧ (c.op = INDEX_CONSTRAINT_LT ∨ c.op = INDEX_CONSTRAINT_GT) then
      .ok { s with argv := argv
                   bitmap := s.bitmap ++
                     [if c.op = INDEX_CONSTRAINT_LT then packTag 2 7 else packTag 3 7]
                   usage := s.usage ++ [some ⟨argv, false⟩] }
    else
      -- constraint not used .. decrement back the argv
      .ok { s with usage := s.usage ++ [none] }

def bestIndexLoop : BIAcc → List IndexConstraint → Except Unit BIAcc
  | s, [] => .ok s
  | s, c :: cs =>
    match bestIndexStep s c with
    | .error e => .error e
    | .ok s' => bestIndexLoop s' cs

/-- The fields of `sqlite.IndexInfoOutput` that `BestIndex` populates. -/
structure IndexInfoOutput where
  constraintUsage : List (Option ConstraintUsage)
  estimated : Option (Nat × Nat)
  uniqueFlag : Bool
  orderByConsumed : Bool
  indexString : List Nat
deriving DecidableEq, Repr

/-- `BestIndex`: fold the constraint loop over the offered constraints,
then consume a single `committer_when DESC` ordering and emit the encoded
bitmap as the index string. -/
def bestIndex (input : IndexInfoInput) : Except Unit IndexInfoOutput :=
  match bestIndexLoop ⟨0, [], [], none, false⟩ input.constraints with
  | .error e => .error e
  | .ok s =>
    .ok { constraintUsage := s.usage
          estimated := s.est
          uniqueFlag := s.uniqueFlag
          orderByConsumed :=
            match input.orderBy with
            | [ob] => ob.columnIndex == 7 && ob.desc
            | _ => false
          indexString := enc s.bitmap }

/-! ## Cursor execution (Filter / Next / Eof)

The external git collaborators (locator, revision resolution, object store,
mailmap parser, RFC3339 timestamp parser) are modelled as an abstract
environment of functions; `Filter`'s control flow over them is embedded
directly. -/

/-- The identity map built from a parsed `.mailmap` file: canonicalizing
(name, email) pairs. The empty list is the empty map. -/
def MailMap : Type := List ((String × String) × (String × String))

instance : DecidableEq MailMap := by unfold MailMap; infer_instance

deriving instance DecidableEq for Except

/-- Result of `t.File(".mailmap")` followed by `f.Contents()`:
the file may be absent (`object.ErrFileNotFound`), the lookup may fail with
another error, or the file exists and reading its contents may itself fail. -/
inductive MailmapLookup
  | notFound
  | lookupErr (e : String)
  | file (contents : Except String String)
deriving DecidableEq, Repr

structure Tree where
  mailmapFile : MailmapLookup
deriving DecidableEq, Repr

/-- A commit object; `tree` models `c.Tree()`, which can fail. -/
structure Commit where
  hash : String
  tree : Except String Tree
deriving DecidableEq, Repr

/-- `git.LogOptions` as populated by `Filter` (order is always
`LogOrderCommitterTime`); times are modelled as integers. -/
structure LogOpts where
  fromHash : String
  since : Option Int
  until_ : Option Int
deriving DecidableEq, Repr

/-- One result of the underlying commit iterator's `Next()`: a commit,
end-of-sequence (`io.EOF`), `plumbing.ErrObjectNotFound`, or another error. -/
inductive IterResult
  | ok (c : Commit)
  | eof
  | notFound
  | fail (e : String)
deriving DecidableEq, Repr

/-- An opened repository handle, as consumed by `Filter`: revision
resolution, `Head()`, `CommitObject`, and `Log` (the latter returning the
stream of successive iterator results; past the end of the list the iterator
keeps reporting end-of-sequence). -/
structure Repo where
  resolveRevision : String → Option String
  head : Option String
  commitObject : String → Option Commit
  log : LogOpts → Except String (List IterResult)

/-- The ambient environment: default repository path from the context,
the injected locator, the `skipMailmap` context flag, `time.Parse` with
`time.RFC3339`, and `mailmap.Parse`. -/
structure GitEnv where
  defaultRepoPath : Except String String
  openRepo : String → Except String Repo
  skipMailmap : Bool
  parseRFC3339 : String → Option Int
  parseMailmap : String → Except String MailMap

/-- The values `Filter` extracts from its bound arguments
(each defaults to the empty string when no matching tag binds it). -/
structure Args where
  hash : String := ""
  path : String := ""
  refName : String := ""
  start : String := ""
  stop : String := ""
deriving DecidableEq, Repr

/-- The argument-routing loop of `Filter`: for the i-th bound value, dispatch
on the i-th bitmap byte. Go indexes the bitmap slice with the value's
position, so a value position beyond the bitmap's length is an out-of-range
access (a runtime panic), modelled as `none`. -/
def extractArgs : List Nat → List String → Args → Option Args
  | _, [], a => some a
  | [], _ :: _, _ => none
  | b :: bs, v :: vs, a =>
    let a' :=
      if b = 0b00010000 then { a with hash := v }
      else if b = 0b00011001 then { a with path := v }
      else if b = 0b00011010 then { a with refName := v }
      else if b = 0b0100111 then { a with stop := v }
      else if b = 0b0110111 then { a with start := v }
      else a
    extractArgs bs vs a'

/-- The cursor state relevant to iteration: the current commit (Go's
`cur.commit`, `nil` when unset), the remaining iterator stream, and the
identity map. -/
structure Cursor where
  commit : Option Commit
  iter : List IterResult
  mm : MailMap
deriving DecidableEq

/-- `Next()`: pull from the iterator. End-of-sequence and
`plumbing.ErrObjectNotFound` are not errors (the commit stays unset);
any other error is returned. -/
def cursorNext (cur : Cursor) : Cursor × Option String :=
  match cur.iter with
  | [] => ({ cur with commit := none }, none)
  | r :: rest =>
    match r with
    | .ok c => ({ cur with commit := some c, iter := rest }, none)
    | .eof => ({ cur with commit := none, iter := rest }, none)
    | .notFound => ({ cur with commit := none, iter := rest }, none)
    | .fail e => ({ cur with commit := none, iter := rest }, some e)

/-- `Eof()`: true exactly when no current commit is held. -/
def cursorEof (cur : Cursor) : Bool := cur.commit.isNone

/-- The mailmap-loading block of `Filter` (guarded by the `skipMailmap`
context flag): look up the start commit, its tree, and the `.mailmap` file;
a missing file jumps past the block (empty identity map); every other
failure is a fatal wrapped error. -/
def loadMailmap (env : GitEnv) (repo : Repo) (fromHash : String) :
    Except String MailMap :=
  if env.skipMailmap then .ok []
  else
    match repo.commitObject fromHash with
    | none => .error "could not lookup commit"
    | some c =>
      match c.tree with
      | .error e => .error ("could not lookup tree: " ++ e)
      | .ok t =>
        match t.mailmapFile with
        | .notFound => .ok []  -- goto skip_mailmap
        | .lookupErr e => .error ("could not lookup mailmap file: " ++ e)
        | .file contents =>
          match contents with
          | .error e => .error ("could not retrieve contents of mailmap file: " ++ e)
          | .ok m =>
            match env.parseMailmap m with
            | .error e => .error ("could not parse mailmap file: " ++ e)
            | .ok mm => .ok mm

/-- Range-bound handling in `Filter`: an empty bound is never parsed; a
non-empty bound is parsed as RFC3339 and silently dropped when parsing
fails (`err == nil` guards the assignment). -/
def parseBound (env : GitEnv) (s : String) : Option Int :=
  if s = "" then none else env.parseRFC3339 s

/-- The tail of the range-scan path of `Filter`: `repo.Log(opts)` followed
by the final `return cur.Next()`. -/
def logStage (repo : Repo) (opts : LogOpts) (mm : MailMap) : Except String Cursor :=
  match repo.log opts with
  | .error e => .error ("failed to create iterator: " ++ e)
  | .ok commits =>
    let res := cursorNext { commit := none, iter := commits, mm := mm }
    match res.2 with
    | some e => .error e
    | none => .ok res.1

/-- The body of `Filter` after argument extraction: open the repository
(falling back to the context's default path), then either a point lookup
from a bound hash, or a range/full scan (resolve start point, load mailmap,
parse range bounds, start the log); in both cases `Filter` ends by
returning `cur.Next()`. -/
def filterCore (env : GitEnv) (a : Args) : Except String Cursor :=
  match (if a.path = "" then env.defaultRepoPath else .ok a.path) with
  | .error e => .error e
  | .ok path =>
    match env.openRepo path with
    | .error e => .error ("failed to open " ++ path ++ ": " ++ e)
    | .ok repo =>
      if a.hash ≠ "" then
        -- we only need to get a single commit
        let iter : List IterResult :=
          match repo.commitObject a.hash with
          | some c => [.ok c]
          | none => [.notFound]
        let res := cursorNext { commit := none, iter := iter, mm := [] }
        match res.2 with
        | some e => .error e
        | none => .ok res.1
      else
        match
          (if a.refName ≠ "" then
            match repo.resolveRevision a.refName with
            | none => .error ("failed to resolve " ++ a.refName)
            | some h => .ok h
          else
            match repo.head with
            | none => .error "failed to resolve head"
            | some h => .ok h : Except String String) with
        | .error e => .error e
        | .ok fromHash =>
          match loadMailmap env repo fromHash with
          | .error e => .error e
          | .ok mm =>
            logStage repo
              { fromHash := fromHash
                since := parseBound env a.start
                until_ := parseBound env a.stop } mm

/-! ## Analysis vocabulary for the planner loop -/

/-- A constraint that `BestIndex` rejects outright: an unusable constraint
on the hash column (0) or the hidden repository column (9). -/
def badConstraint (c : IndexConstraint) : Bool :=
  (c.columnIndex == 0 || c.columnIndex == 9) && !c.usable

/-- A constraint that `BestIndex` pushes down (gets an argv slot and a tag):
hash equality, repository/ref equality, or a range bound on
`committer_when` (column 7). -/
def usesConstraint (c : IndexConstraint) : Bool :=
  c.usable &&
    ((c.columnIndex == 0 && c.op == INDEX_CONSTRAINT_EQ) ||
     ((c.columnIndex == 9 || c.columnIndex == 10) && c.op == INDEX_CONSTRAINT_EQ) ||
     (c.columnIndex == 7 && (c.op == INDEX_CONSTRAINT_LT || c.op == INDEX_CONSTRAINT_GT)))

/-- The byte `BestIndex` appends for a pushed-down constraint. -/
def tagOf (c : IndexConstraint) : Nat :=
  if c.columnIndex == 0 then packTag 1 0
  else if c.columnIndex == 9 then packTag 1 9
  else if c.columnIndex == 10 then packTag 1 10
  else if c.op == INDEX_CONSTRAINT_LT then packTag 2 7
  else packTag 3 7

/-- Whether the pushed-down constraint is marked `Omit` (only the hidden
repository/ref selectors are). -/
def omitOf (c : IndexConstraint) : Bool :=
  c.columnIndex == 9 || c.columnIndex == 10

/-- A usable equality constraint on the hash column: the point-lookup case. -/
def isHashEq (c : IndexConstraint) : Bool :=
  c.usable && c.columnIndex == 0 && c.op == INDEX_CONSTRAINT_EQ

/-- The `ConstraintUsage` entries the loop produces for a constraint list,
starting from argv counter `n`. -/
def usageOf (n : Nat) : List IndexConstraint → List (Option ConstraintUsage)
  | [] => []
  | c :: cs =>
    if usesConstraint c then some ⟨n + 1, omitOf c⟩ :: usageOf (n + 1) cs
    else none :: usageOf n cs

/-- `Filter` in full: decode the index string (discarding the decode error),
route the bound values through the bitmap, then run the cursor setup.
`none` models the out-of-range panic in the routing loop. -/
def filter (env : GitEnv) (s : List Nat) (values : List String) :
    Option (Except String Cursor) :=
  (extractArgs (decD s) values {}).map (filterCore env)

/-! ## Codec lemmas -/

theorem packTag_lt (role col : Nat) : packTag role col < 256 :=
  Nat.mod_lt _ (by norm_num)

theorem packTag_eq (role col : Nat) (hr : role < 16) (hc : col < 16) :
    packTag role col = role * 16 + col := by
  unfold packTag
  rw [Nat.shiftLeft_eq]
  interval_cases role <;> interval_cases col <;> rfl

theorem packTag_nibbles (role col : Nat) (hr : role < 16) (hc : col < 16) :
    packTag role col / 16 = role ∧ packTag role col % 16 = col := by
  rw [packTag_eq role col hr hc]
  omega

theorem unhexDig_hexDig (n : Nat) (h : n < 16) : unhexDig (hexDig n) = some n := by
  unfold hexDig unhexDig
  split_ifs <;> (congr 1; omega)

theorem dec_enc (bs : List Nat) (h : ∀ b ∈ bs, b < 256) : dec (enc bs) = some bs := by
  induction bs with
  | nil => rfl
  | cons b bs ih =>
    have hb : b < 256 := h b (List.mem_cons_self _ _)
    have henc : enc (b :: bs) = hexDig (b / 16) :: hexDig (b % 16) :: enc bs := by
      simp [enc]
    rw [henc]
    simp only [dec, unhexDig_hexDig (b / 16) (by omega), unhexDig_hexDig (b % 16) (by omega),
      ih (fun x hx => h x (List.mem_cons_of_mem _ hx))]
    have hb16 : b / 16 * 16 + b % 16 = b := by omega
    rw [hb16]

theorem decD_enc (bs : List Nat) (h : ∀ b ∈ bs, b < 256) : decD (enc bs) = bs := by
  simp [decD, dec_enc bs h]

theorem tagOf_lt (c : IndexConstraint) : tagOf c < 256 := by
  unfold tagOf
  split_ifs <;> exact packTag_lt _ _

/-! ## Planner loop lemmas -/

theorem usesConstraint_of_not_usable (c : IndexConstraint) (h : c.usable = false) :
    usesConstraint c = false := by
  simp [usesConstraint, h]

theorem isHashEq_false_of_not_uses (c : IndexConstraint) (h : usesConstraint c = false) :
    isHashEq c = false := by
  obtain ⟨col, op, u⟩ := c
  rcases u with _ | _
  · simp [isHashEq]
  · simp [usesConstraint] at h
    simp [isHashEq]
    intro h0
    exact h.1.1 h0

theorem bestIndexStep_bad (s : BIAcc) (c : IndexConstraint) (h : badConstraint c = true) :
    bestIndexStep s c = .error () := by
  obtain ⟨col, op, u⟩ := c
  simp [badConstraint] at h
  obtain ⟨hcol, hu⟩ := h
  subst hu
  rcases hcol with h0 | h9
  · subst h0; simp [bestIndexStep]
  · subst h9; simp [bestIndexStep]

theorem bestIndexStep_unused (s : BIAcc) (c : IndexConstraint)
    (hb : badConstraint c = false) (hu : c.usable = false) :
    bestIndexStep s c = .ok { s with usage := s.usage ++ [none] } := by
  obtain ⟨col, op, u⟩ := c
  simp at hu
  subst hu
  simp [badConstraint] at hb
  simp [bestIndexStep, hb.1, hb.2]

theorem bestIndexStep_used (s : BIAcc) (c : IndexConstraint)
    (hu : usesConstraint c = true) :
    bestIndexStep s c = .ok
      { argv := s.argv + 1
        bitmap := s.bitmap ++ [tagOf c]
        usage := s.usage ++ [some ⟨s.argv + 1, omitOf c⟩]
        est := if isHashEq c then some (1, 1) else s.est
        uniqueFlag := s.uniqueFlag || isHashEq c } := by
  obtain ⟨col, op, u⟩ := c
  simp [usesConstraint] at hu
  obtain ⟨hu1, hcases⟩ := hu
  subst hu1
  rcases hcases with (⟨h0, hop⟩ | ⟨h910, hop⟩) | ⟨h7, hop⟩
  · subst h0; subst hop
    simp [bestIndexStep, tagOf, omitOf, isHashEq]
  · subst hop
    rcases h910 with h9 | h10
    · subst h9
      simp [bestIndexStep, tagOf, omitOf, isHashEq]
    · subst h10
      simp [bestIndexStep, tagOf, omitOf, isHashEq]
  · subst h7
    rcases hop with hlt | hgt
    · subst hlt
      simp [bestIndexStep, tagOf, omitOf, isHashEq, INDEX_CONSTRAINT_EQ, INDEX_CONSTRAINT_LT]
    · subst hgt
      simp [bestIndexStep, tagOf, omitOf, isHashEq, INDEX_CONSTRAINT_EQ,
        INDEX_CONSTRAINT_LT, INDEX_CONSTRAINT_GT]

theorem bestIndexStep_notused (s : BIAcc) (c : IndexConstraint)
    (hus : c.usable = true) (hu : usesConstraint c = false) :
    bestIndexStep s c = .ok { s with usage := s.usage ++ [none] } := by
  obtain ⟨col, op, u⟩ := c
  simp at hus
  subst hus
  simp [usesConstraint] at hu
  obtain ⟨⟨h0, h910⟩, h7⟩ := hu
  simp only [bestIndexStep]
  rw [if_neg (by simp), if_neg (by simp), if_neg (by simp),
    if_neg (fun h => h0 h.1 h.2), if_neg (fun h => h910 h.1 h.2),
    if_neg (fun h => h.2.elim (h7 h.1).1 (h7 h.1).2)]

theorem bestIndexLoop_spec (cs : List IndexConstraint) :
    ∀ s s' : BIAcc, bestIndexLoop s cs = .ok s' →
      s'.argv = s.argv + (cs.filter usesConstraint).length ∧
      s'.bitmap = s.bitmap ++ (cs.filter usesConstraint).map tagOf ∧
      s'.usage = s.usage ++ usageOf s.argv cs ∧
      s'.est = (if cs.any isHashEq then some (1, 1) else s.est) ∧
      s'.uniqueFlag = (s.uniqueFlag || cs.any isHashEq) := by
  induction cs with
  | nil =>
    intro s s' h
    simp [bestIndexLoop] at h
    subst h
    simp [usageOf]
  | cons c cs ih =>
    intro s s' h
    by_cases hbad : badConstraint c = true
    · rw [show bestIndexLoop s (c :: cs) =
          (match bestIndexStep s c with
           | .error e => .error e
           | .ok s₁ => bestIndexLoop s₁ cs) from rfl,
        bestIndexStep_bad s c hbad] at h
      simp at h
    · have hbad' : badConstraint c = false := by simpa using hbad
      by_cases hus : c.usable = false
      · rw [show bestIndexLoop s (c :: cs) =
            (match bestIndexStep s c with
             | .error e => .error e
             | .ok s₁ => bestIndexLoop s₁ cs) from rfl,
          bestIndexStep_unused s c hbad' hus] at h
        obtain ⟨ha, hb, hu2, he, hq⟩ := ih _ _ h
        have husel : usesConstraint c = false := usesConstraint_of_not_usable c hus
        have hhe : isHashEq c = false := isHashEq_false_of_not_uses c husel
        refine ⟨?_, ?_, ?_, ?_, ?_⟩
        · simpa [List.filter_cons, husel] using ha
        · simpa [List.filter_cons, husel] using hb
        · rw [hu2]
          simp [usageOf, husel, List.append_assoc]
        · rw [he]
          simp [List.any_cons, hhe]
        · rw [hq]
          simp [List.any_cons, hhe]
      · have hust : c.usable = true := by simpa using hus
        by_cases huse : usesConstraint c = true
        · rw [show bestIndexLoop s (c :: cs) =
              (match bestIndexStep s c with
               | .error e => .error e
               | .ok s₁ => bestIndexLoop s₁ cs) from rfl,
            bestIndexStep_used s c huse] at h
          obtain ⟨ha, hb, hu2, he, hq⟩ := ih _ _ h
          dsimp only at ha hb hu2 he hq
          refine ⟨?_, ?_, ?_, ?_, ?_⟩
          · rw [ha]
            simp [List.filter_cons, huse]
            omega
          · rw [hb, List.append_assoc]
            simp [List.filter_cons, huse]
          · rw [hu2]
            simp [usageOf, huse, List.append_assoc]
          · rw [he]
            simp only [List.any_cons]
            rcases Bool.dichotomy (isHashEq c) with hh | hh <;>
              rcases Bool.dichotomy (cs.any isHashEq) with hcs | hcs <;>
              simp [hh, hcs]
          · rw [hq]
            simp only [List.any_cons]
            rcases Bool.dichotomy (isHashEq c) with hh | hh <;>
              rcases Bool.dichotomy (cs.any isHashEq) with hcs | hcs <;>
              simp [hh, hcs]
        · have husef : usesConstraint c = false := by simpa using huse
          rw [show bestIndexLoop s (c :: cs) =
              (match bestIndexStep s c with
               | .error e => .error e
               | .ok s₁ => bestIndexLoop s₁ cs) from rfl,
            bestIndexStep_notused s c hust husef] at h
          obtain ⟨ha, hb, hu2, he, hq⟩ := ih _ _ h
          have hhe : isHashEq c = false := isHashEq_false_of_not_uses c husef
          refine ⟨?_, ?_, ?_, ?_, ?_⟩
          · simpa [List.filter_cons, husef] using ha
          · simpa [List.filter_cons, husef] using hb
          · rw [hu2]
            simp [usageOf, husef, List.append_assoc]
          · rw [he]
            simp [List.any_cons, hhe]
          · rw [hq]
            simp [List.any_cons, hhe]

theorem bestIndexStep_ok_of_not_bad (s : BIAcc) (c : IndexConstraint)
    (h : badConstraint c = false) : ∃ s₁, bestIndexStep s c = .ok s₁ := by
  by_cases hus : c.usable = false
  · exact ⟨_, bestIndexStep_unused s c h hus⟩
  · have hust : c.usable = true := by simpa using hus
    by_cases huse : usesConstraint c = true
    · exact ⟨_, bestIndexStep_used s c huse⟩
    · exact ⟨_, bestIndexStep_notused s c hust (by simpa using huse)⟩

theorem bestIndexLoop_error (cs : List IndexConstraint) :
    ∀ s : BIAcc, (∃ c ∈ cs, badConstraint c = true) → bestIndexLoop s cs = .error () := by
  induction cs with
  | nil => intro s h; simp at h
  | cons c cs ih =>
    intro s h
    by_cases hbad : badConstraint c = true
    · rw [show bestIndexLoop s (c :: cs) =
          (match bestIndexStep s c with
           | .error e => .error e
           | .ok s₁ => bestIndexLoop s₁ cs) from rfl,
        bestIndexStep_bad s c hbad]
    · have hbad' : badConstraint c = false := by simpa using hbad
      obtain ⟨s₁, hs₁⟩ := bestIndexStep_ok_of_not_bad s c hbad'
      rw [show bestIndexLoop s (c :: cs) =
          (match bestIndexStep s c with
           | .error e => .error e
           | .ok s₁ => bestIndexLoop s₁ cs) from rfl,
        hs₁]
      apply ih
      rcases h with ⟨c', hc', hb'⟩
      rcases List.mem_cons.mp hc' with rfl | hmem
      · rw [hbad'] at hb'; cases hb'
      · exact ⟨c', hmem, hb'⟩

theorem bestIndexLoop_ok (cs : List IndexConstraint) :
    ∀ s : BIAcc, (∀ c ∈ cs, badConstraint c = false) →
      ∃ s', bestIndexLoop s cs = .ok s' := by
  induction cs with
  | nil => intro s _; exact ⟨s, rfl⟩
  | cons c cs ih =>
    intro s h
    obtain ⟨s₁, hs₁⟩ := bestIndexStep_ok_of_not_bad s c (h c (List.mem_cons_self _ _))
    obtain ⟨s', hs'⟩ := ih s₁ (fun c' hc' => h c' (List.mem_cons_of_mem _ hc'))
    refine ⟨s', ?_⟩
    rw [show bestIndexLoop s (c :: cs) =
        (match bestIndexStep s c with
         | .error e => .error e
         | .ok s₁ => bestIndexLoop s₁ cs) from rfl,
      hs₁]
    exact hs'

theorem badConstraint_iff (c : IndexConstraint) :
    badConstraint c = true ↔
      (c.columnIndex = 0 ∨ c.columnIndex = 9) ∧ c.usable = false := by
  obtain ⟨col, op, u⟩ := c
  simp [badConstraint]

/-- What `bestIndex` returns on success, in terms of the analysis
vocabulary. -/
theorem bestIndex_ok_spec (input : IndexInfoInput) (out : IndexInfoOutput)
    (h : bestIndex input = .ok out) :
    out.constraintUsage = usageOf 0 input.constraints ∧
    out.indexString = enc ((input.constraints.filter usesConstraint).map tagOf) ∧
    out.estimated = (if input.constraints.any isHashEq then some (1, 1) else none) ∧
    out.uniqueFlag = input.constraints.any isHashEq ∧
    out.orderByConsumed = (match input.orderBy with
      | [ob] => ob.columnIndex == 7 && ob.desc
      | _ => false) := by
  unfold bestIndex at h
  cases hloop : bestIndexLoop ⟨0, [], [], none, false⟩ input.constraints with
  | error e => rw [hloop] at h; cases h
  | ok s =>
    rw [hloop] at h
    obtain ⟨ha, hb, hu, he, hq⟩ := bestIndexLoop_spec _ _ _ hloop
    dsimp only at ha hb hu he hq
    cases h
    dsimp only
    rw [hb, hu, he, hq]
    simp

theorem usageOf_filterMap_length (cs : List IndexConstraint) : ∀ n : Nat,
    ((usageOf n cs).filterMap id).length = (cs.filter usesConstraint).length := by
  induction cs with
  | nil => intro n; rfl
  | cons c cs ih =>
    intro n
    by_cases huse : usesConstraint c = true
    · simp [usageOf, huse, List.filter_cons, ih]
    · have huse' : usesConstraint c = false := by simpa using huse
      simp [usageOf, huse', List.filter_cons, ih]

theorem zip_usageOf (cs : List IndexConstraint) : ∀ n : Nat,
    (cs.zip (usageOf n cs)).filterMap
        (fun p => p.2.map (fun u => (p.1, u.argvIndex)))
      = (cs.filter usesConstraint).zip
          (List.range' (n + 1) (cs.filter usesConstraint).length) := by
  induction cs with
  | nil => intro n; rfl
  | cons c cs ih =>
    intro n
    by_cases huse : usesConstraint c = true
    · simp only [usageOf, huse, if_true, List.zip_cons_cons, List.filterMap_cons,
        List.filter_cons, Option.map_some]
      rw [ih (n + 1)]
      simp [List.range'_succ]
    · have huse' : usesConstraint c = false := by simpa using huse
      simp only [usageOf, huse', if_false, Bool.false_eq_true, List.zip_cons_cons,
        List.filterMap_cons, List.filter_cons]
      rw [ih n]
      simp [huse']

theorem extractArgs_isSome (bs : List Nat) : ∀ (vs : List String) (a : Args),
    vs.length ≤ bs.length → (extractArgs bs vs a).isSome = true := by
  induction bs with
  | nil =>
    intro vs a h
    cases vs with
    | nil => rfl
    | cons v vs => simp at h
  | cons b bs ih =>
    intro vs a h
    cases vs with
    | nil => rfl
    | cons v vs =>
      simp only [extractArgs]
      apply ih
      simpa using h

/-! ## Claim theorems: planner -/

/-- C1 (counterexample): an equality predicate on the hidden reference-name
column (index 10) offered but marked unusable does NOT make planning fail:
`BestIndex` returns a plan (the constraint is merely skipped), contradicting
the claim that planning fails for all three of hash, repository, and ref. -/
theorem bestIndex_unusable_ref_accepted :
    bestIndex { constraints := [⟨10, INDEX_CONSTRAINT_EQ, false⟩], orderBy := [] }
      = .ok { constraintUsage := [none], estimated := none, uniqueFlag := false,
              orderByConsumed := false, indexString := [] } := rfl

/-- C1 (amended): planning fails with a constraint error exactly when an
unusable constraint on the hash column (0) or the hidden repository column
(9) is offered; an unusable constraint on the hidden reference-name column
(10) does not fail planning — it is simply left unused. -/
theorem bestIndex_constraint_error_iff (input : IndexInfoInput) :
    bestIndex input = .error () ↔
      ∃ c ∈ input.constraints,
        (c.columnIndex = 0 ∨ c.columnIndex = 9) ∧ c.usable = false := by
  constructor
  · intro h
    by_contra hno
    push_neg at hno
    have hall : ∀ c ∈ input.constraints, badConstraint c = false := by
      intro c hc
      rcases Bool.dichotomy (badConstraint c) with hb | hb
      · exact hb
      · obtain ⟨hcol, hu⟩ := (badConstraint_iff c).mp hb
        exact absurd hu (hno c hc hcol)
    obtain ⟨s', hs'⟩ := bestIndexLoop_ok input.constraints _ hall
    unfold bestIndex at h
    rw [hs'] at h
    cases h
  · rintro ⟨c, hc, hcond⟩
    have hb : badConstraint c = true := (badConstraint_iff c).mpr hcond
    have hloop := bestIndexLoop_error input.constraints ⟨0, [], [], none, false⟩ ⟨c, hc, hb⟩
    unfold bestIndex
    rw [hloop]

/-- C1 witness for the amended theorem: an unusable hash-equality constraint
makes planning fail. -/
theorem bestIndex_constraint_error_iff_witness :
    bestIndex { constraints := [⟨0, INDEX_CONSTRAINT_EQ, false⟩], orderBy := [] }
      = .error () :=
  (bestIndex_constraint_error_iff _).mpr
    ⟨⟨0, INDEX_CONSTRAINT_EQ, false⟩, by simp, Or.inl rfl, rfl⟩

/-- C2: on every accepted constraint set, the decoded tag sequence is
exactly one tag per constraint that received an argv slot, in order; the
constraints holding a slot get the slots 1..n in order, so the i-th tag
(0-based) describes the value delivered in the i-th argument position. -/
theorem bestIndex_tag_slot_correspondence (input : IndexInfoInput)
    (out : IndexInfoOutput) (h : bestIndex input = .ok out) :
    decD out.indexString = (input.constraints.filter usesConstraint).map tagOf ∧
    (decD out.indexString).length = (out.constraintUsage.filterMap id).length ∧
    (input.constraints.zip out.constraintUsage).filterMap
        (fun p => p.2.map (fun u => (p.1, u.argvIndex)))
      = (input.constraints.filter usesConstraint).zip
          (List.range' 1 (input.constraints.filter usesConstraint).length) := by
  obtain ⟨hu, hs, _, _, _⟩ := bestIndex_ok_spec input out h
  have hbytes : ∀ b ∈ (input.constraints.filter usesConstraint).map tagOf, b < 256 := by
    intro b hb
    obtain ⟨c, _, rfl⟩ := List.mem_map.mp hb
    exact tagOf_lt c
  have hdec : decD out.indexString = (input.constraints.filter usesConstraint).map tagOf := by
    rw [hs]; exact decD_enc _ hbytes
  refine ⟨hdec, ?_, ?_⟩
  · rw [hdec, hu, usageOf_filterMap_length]
    simp
  · rw [hu, zip_usageOf]

def inputC2 : IndexInfoInput :=
  { constraints := [⟨0, 2, true⟩, ⟨9, 2, true⟩, ⟨7, 16, true⟩, ⟨3, 2, true⟩]
    orderBy := [⟨7, true⟩] }

def outC2 : IndexInfoOutput :=
  { constraintUsage := [some ⟨1, false⟩, some ⟨2, true⟩, some ⟨3, false⟩, none]
    estimated := some (1, 1)
    uniqueFlag := true
    orderByConsumed := true
    indexString := [49, 48, 49, 57, 50, 55] }

/-- C2 witness: a concrete plan with three assigned slots. -/
theorem bestIndex_tag_slot_correspondence_witness :
    bestIndex inputC2 = .ok outC2 ∧
    (decD outC2.indexString = (inputC2.constraints.filter usesConstraint).map tagOf ∧
     (decD outC2.indexString).length = (outC2.constraintUsage.filterMap id).length ∧
     (inputC2.constraints.zip outC2.constraintUsage).filterMap
         (fun p => p.2.map (fun u => (p.1, u.argvIndex)))
       = (inputC2.constraints.filter usesConstraint).zip
           (List.range' 1 (inputC2.constraints.filter usesConstraint).length)) :=
  ⟨rfl, bestIndex_tag_slot_correspondence inputC2 outC2 rfl⟩

/-- C4: the order-by-consumed flag is set exactly when the requested
ordering is the single term `committer_when DESC` (column 7 descending). -/
theorem bestIndex_orderByConsumed_iff (input : IndexInfoInput)
    (out : IndexInfoOutput) (h : bestIndex input = .ok out) :
    out.orderByConsumed = true ↔
      input.orderBy = [{ columnIndex := 7, desc := true }] := by
  obtain ⟨_, _, _, _, hob⟩ := bestIndex_ok_spec input out h
  rw [hob]
  cases input.orderBy with
  | nil => simp
  | cons ob obs =>
    cases obs with
    | nil =>
      obtain ⟨colI, d⟩ := ob
      simp [OrderBy.mk.injEq]
    | cons ob2 obs => simp

/-- C4 witness: `ORDER BY committer_when DESC` consumes the ordering. -/
theorem bestIndex_orderByConsumed_iff_witness :
    GitLog.IndexInfoOutput.orderByConsumed
        { constraintUsage := [], estimated := none, uniqueFlag := false,
          orderByConsumed := true, indexString := [] } = true ↔
      [({ columnIndex := 7, desc := true } : OrderBy)]
        = [({ columnIndex := 7, desc := true } : OrderBy)] :=
  bestIndex_orderByConsumed_iff { constraints := [], orderBy := [⟨7, true⟩] } _ rfl

/-- C5: a usable hash-equality constraint forces estimated cost 1, estimated
rows 1 and the unique-scan flag, and it is the only case doing so: without
one, the estimates are left at the host defaults (not overridden) and the
unique flag stays clear. -/
theorem bestIndex_pointLookup_estimates (input : IndexInfoInput)
    (out : IndexInfoOutput) (h : bestIndex input = .ok out) :
    (input.constraints.any isHashEq = true →
        out.estimated = some (1, 1) ∧ out.uniqueFlag = true) ∧
    (input.constraints.any isHashEq = false →
        out.estimated = none ∧ out.uniqueFlag = false) := by
  obtain ⟨_, _, he, hq, _⟩ := bestIndex_ok_spec input out h
  constructor <;> intro hh <;> simp [he, hq, hh]

/-- C5 witness: with a usable hash-equality constraint the estimates are
overridden to (1, 1) and the unique flag set. -/
theorem bestIndex_pointLookup_estimates_witness :
    ([(⟨0, 2, true⟩ : IndexConstraint)].any isHashEq = true →
        GitLog.IndexInfoOutput.estimated
            { constraintUsage := [some ⟨1, false⟩], estimated := some (1, 1),
              uniqueFlag := true, orderByConsumed := false,
              indexString := [49, 48] } = some (1, 1) ∧
          GitLog.IndexInfoOutput.uniqueFlag
            { constraintUsage := [some ⟨1, false⟩], estimated := some (1, 1),
              uniqueFlag := true, orderByConsumed := false,
              indexString := [49, 48] } = true) ∧
    ([(⟨0, 2, true⟩ : IndexConstraint)].any isHashEq = false →
        GitLog.IndexInfoOutput.estimated
            { constraintUsage := [some ⟨1, false⟩], estimated := some (1, 1),
              uniqueFlag := true, orderByConsumed := false,
              indexString := [49, 48] } = none ∧
          GitLog.IndexInfoOutput.uniqueFlag
            { constraintUsage := [some ⟨1, false⟩], estimated := some (1, 1),
              uniqueFlag := true, orderByConsumed := false,
              indexString := [49, 48] } = false) :=
  bestIndex_pointLookup_estimates
    { constraints := [⟨0, 2, true⟩], orderBy := [] } _ rfl

/-- C10: `Filter` indexes the decoded bitmap at each bound value's position
(discarding the decode error), which is out-of-range — modelled as `none` —
unless the bitmap has at least as many bytes as there are bound values.
The final conjunct exhibits the out-of-range case on a too-short bitmap;
the first two show the precondition holds for any unmodified `BestIndex`
token: the decoded bitmap has exactly one byte per assigned argv slot, so
dispatch succeeds whenever the host delivers one value per slot. -/
theorem filter_bitmap_precondition (input : IndexInfoInput)
    (out : IndexInfoOutput) (h : bestIndex input = .ok out)
    (values : List String)
    (hlen : values.length = (out.constraintUsage.filterMap id).length) :
    (decD out.indexString).length = (out.constraintUsage.filterMap id).length ∧
    (∀ a : Args, (extractArgs (decD out.indexString) values a).isSome = true) ∧
    extractArgs [] ["x"] ⟨"", "", "", "", ""⟩ = none := by
  obtain ⟨hu, hs, _, _, _⟩ := bestIndex_ok_spec input out h
  have hbytes : ∀ b ∈ (input.constraints.filter usesConstraint).map tagOf, b < 256 := by
    intro b hb
    obtain ⟨c, _, rfl⟩ := List.mem_map.mp hb
    exact tagOf_lt c
  have hdec : decD out.indexString
      = (input.constraints.filter usesConstraint).map tagOf := by
    rw [hs]; exact decD_enc _ hbytes
  have hlen2 : (decD out.indexString).length
      = (out.constraintUsage.filterMap id).length := by
    rw [hdec, hu, usageOf_filterMap_length]
    simp
  refine ⟨hlen2, ?_, rfl⟩
  intro a
  apply extractArgs_isSome
  rw [hlen, ← hlen2]

def inputC10 : IndexInfoInput :=
  { constraints := [⟨9, 2, true⟩, ⟨7, 4, true⟩], orderBy := [] }

def outC10 : IndexInfoOutput :=
  { constraintUsage := [some ⟨1, true⟩, some ⟨2, false⟩]
    estimated := none
    uniqueFlag := false
    orderByConsumed := false
    indexString := [49, 57, 51, 55] }

/-- C10 witness: a two-slot plan dispatches two bound values safely. -/
theorem filter_bitmap_precondition_witness :
    bestIndex inputC10 = .ok outC10 ∧
    ((decD outC10.indexString).length = (outC10.constraintUsage.filterMap id).length ∧
     (∀ a : Args, (extractArgs (decD outC10.indexString) ["p", "t"] a).isSome = true) ∧
     extractArgs [] ["x"] ⟨"", "", "", "", ""⟩ = none) :=
  ⟨rfl, filter_bitmap_precondition inputC10 outC10 rfl ["p", "t"] rfl⟩

/-! ## Claim theorems: codec -/

/-- C3: packing a (role, column) tag with role in the high nibble and column
in the low nibble, serializing a tag sequence with `enc` and decoding with
`dec` reproduces the sequence exactly (both at byte level and at
(role, column) level), and the byte constants `Filter` dispatches on are
exactly the bytes `BestIndex` packs: `0b00010000` for hash equality,
`0b00011001`/`0b00011010` for the repository/ref selectors, and
`0b0100111`/`0b0110111` for the `committer_when` range tags. -/
theorem codec_round_trip :
    (∀ role col : Nat, role < 16 → col < 16 →
        packTag role col / 16 = role ∧ packTag role col % 16 = col) ∧
    (∀ tags : List Nat, (∀ b ∈ tags, b < 256) → dec (enc tags) = some tags) ∧
    (∀ tags : List (Nat × Nat), (∀ p ∈ tags, p.1 < 16 ∧ p.2 < 16) →
        (dec (enc (tags.map (fun p => packTag p.1 p.2)))).map
            (List.map (fun b => (b / 16, b % 16)))
          = some tags) ∧
    (packTag 1 0 = 0b00010000 ∧ packTag 1 9 = 0b00011001 ∧
     packTag 1 10 = 0b00011010 ∧ packTag 2 7 = 0b0100111 ∧
     packTag 3 7 = 0b0110111) := by
  refine ⟨fun role col hr hc => packTag_nibbles role col hr hc, dec_enc, ?_, ?_⟩
  · intro tags hb
    have hlt : ∀ b ∈ tags.map (fun p => packTag p.1 p.2), b < 256 := by
      intro b hmem
      obtain ⟨p, _, rfl⟩ := List.mem_map.mp hmem
      exact packTag_lt _ _
    rw [dec_enc _ hlt]
    show some ((tags.map (fun p => packTag p.1 p.2)).map (fun b => (b / 16, b % 16)))
      = some tags
    rw [List.map_map]
    congr 1
    conv_rhs => rw [show tags = tags.map id from (List.map_id tags).symm]
    apply List.map_congr_left
    intro p hp
    obtain ⟨h1, h2⟩ := packTag_nibbles p.1 p.2 (hb p hp).1 (hb p hp).2
    show (packTag p.1 p.2 / 16, packTag p.1 p.2 % 16) = p
    rw [h1, h2]
  · refine ⟨rfl, rfl, rfl, rfl, rfl⟩

/-- C3 witness: the round trip on the concrete tag sequence a query
`WHERE hash = ? AND repository = ?` produces. -/
theorem codec_round_trip_witness :
    dec (enc [packTag 1 0, packTag 1 9]) = some [packTag 1 0, packTag 1 9] :=
  codec_round_trip.2.1 [packTag 1 0, packTag 1 9] (by decide)

/-! ## Claim theorems: cursor -/

/-- C6: with a non-empty bound hash, `Filter` performs a point lookup: the
cursor's iteration source is built directly from the hash (the current
commit is the resolved commit, or unset when the hash resolves to nothing)
and `Filter` returns right after the single advance; the result is
independent of the environment's mailmap and timestamp-parsing collaborators
(second conjunct), and depends on the repository only through
`commitObject` (first conjunct's right-hand side). -/
theorem filter_point_lookup (env : GitEnv) (a : Args) (repo : Repo)
    (hh : a.hash ≠ "") (hp : a.path ≠ "") (hopen : env.openRepo a.path = .ok repo) :
    filterCore env a = .ok { commit := repo.commitObject a.hash, iter := [], mm := [] } ∧
    (∀ env' : GitEnv, env'.openRepo = env.openRepo →
        env'.defaultRepoPath = env.defaultRepoPath →
        filterCore env' a = filterCore env a) := by
  constructor
  · simp only [filterCore, if_neg hp, hopen, if_pos hh]
    cases hc : repo.commitObject a.hash <;> simp [cursorNext, hc]
  · intro env' h1 h2
    simp only [filterCore, h1, h2, if_neg hp, hopen, if_pos hh]

def commitAbc : Commit := ⟨"abc", .ok ⟨.notFound⟩⟩

def repoC6 : Repo :=
  { resolveRevision := fun _ => none
    head := none
    commitObject := fun h => if h = "abc" then some commitAbc else none
    log := fun _ => .error "unused" }

def envC6 : GitEnv :=
  { defaultRepoPath := .error "no default repo"
    openRepo := fun p => if p = "/r" then .ok repoC6 else .error "not found"
    skipMailmap := false
    parseRFC3339 := fun _ => none
    parseMailmap := fun _ => .error "unused" }

/-- C6 witness: a bound hash that resolves yields a one-commit cursor. -/
theorem filter_point_lookup_witness :
    filterCore envC6 { hash := "abc", path := "/r" }
      = .ok { commit := repoC6.commitObject "abc", iter := [], mm := [] } :=
  (filter_point_lookup envC6 { hash := "abc", path := "/r" } repoC6
    (by decide) (by decide) rfl).1

/-- C7: during range/full-scan setup, the mailmap policy is: skip flag set ⇒
no lookup at all (empty map for every repository); `.mailmap` absent from
the start commit's tree ⇒ no error and the identity map stays empty; file
present but unparseable ⇒ fatal wrapped error; and any mailmap-loading
error becomes `Filter`'s return value (last conjunct). -/
theorem filter_mailmap_policy (env : GitEnv) (repo : Repo) (fromHash : String) :
    (env.skipMailmap = true → ∀ repo' : Repo, loadMailmap env repo' fromHash = .ok []) ∧
    (env.skipMailmap = false → ∀ c t, repo.commitObject fromHash = some c →
        c.tree = .ok t → t.mailmapFile = .notFound →
        loadMailmap env repo fromHash = .ok []) ∧
    (env.skipMailmap = false → ∀ c t m e, repo.commitObject fromHash = some c →
        c.tree = .ok t → t.mailmapFile = .file (.ok m) →
        env.parseMailmap m = .error e →
        loadMailmap env repo fromHash = .error ("could not parse mailmap file: " ++ e)) ∧
    (∀ (a : Args) (e : String), a.hash = "" → a.path ≠ "" →
        env.openRepo a.path = .ok repo → a.refName ≠ "" →
        repo.resolveRevision a.refName = some fromHash →
        loadMailmap env repo fromHash = .error e → filterCore env a = .error e) := by
  refine ⟨?_, ?_, ?_, ?_⟩
  · intro hskip repo'
    simp [loadMailmap, hskip]
  · intro hskip c t hc ht hm
    simp [loadMailmap, hskip, hc, ht, hm]
  · intro hskip c t m e hc ht hm hp
    simp [loadMailmap, hskip, hc, ht, hm, hp]
  · intro a e hhash hpath hopen href hres hmm
    simp only [filterCore, if_neg hpath, hopen,
      if_neg (fun hne : a.hash ≠ "" => hne hhash), if_pos href, hres, hmm]

def treeC7 : Tree := ⟨.file (.ok "bad mailmap")⟩

def commitC7 : Commit := ⟨"h1", .ok treeC7⟩

def repoC7 : Repo :=
  { resolveRevision := fun _ => some "h1"
    head := some "h1"
    commitObject := fun h => if h = "h1" then some commitC7 else none
    log := fun _ => .ok [] }

def envC7 : GitEnv :=
  { defaultRepoPath := .error "no default repo"
    openRepo := fun _ => .ok repoC7
    skipMailmap := false
    parseRFC3339 := fun _ => none
    parseMailmap := fun _ => .error "syntax" }

/-- C7 witness: an unparseable `.mailmap` is fatal; the skip flag forgoes
the lookup entirely. -/
theorem filter_mailmap_policy_witness :
    loadMailmap envC7 repoC7 "h1" = .error ("could not parse mailmap file: " ++ "syntax") ∧
    loadMailmap { envC7 with skipMailmap := true } repoC7 "h1" = .ok [] :=
  ⟨(filter_mailmap_policy envC7 repoC7 "h1").2.2.1 rfl commitC7 treeC7
      "bad mailmap" "syntax" rfl rfl rfl rfl,
   (filter_mailmap_policy { envC7 with skipMailmap := true } repoC7 "h1").1 rfl repoC7⟩

/-- C8: a bound range value on `committer_when` is parsed as RFC3339; a
successful parse installs the bound (the greater-than tag's value becomes
`Since`, the less-than tag's value becomes `Until` of the traversal options
handed to the log, per the routing and logStage conjuncts), while a failed
parse silently drops the bound — `Filter` behaves exactly as if the bound
were absent, with no error on account of it. -/
theorem filter_range_bound_parsing (env : GitEnv) :
    (∀ (s : String) (t : Int), s ≠ "" → env.parseRFC3339 s = some t →
        parseBound env s = some t) ∧
    (∀ s : String, env.parseRFC3339 s = none → parseBound env s = none) ∧
    (∀ v : String, extractArgs [0b0110111] [v] ⟨"", "", "", "", ""⟩
        = some ⟨"", "", "", v, ""⟩) ∧
    (∀ v : String, extractArgs [0b0100111] [v] ⟨"", "", "", "", ""⟩
        = some ⟨"", "", "", "", v⟩) ∧
    (∀ (a : Args) (repo : Repo) (fromHash : String) (mm : MailMap),
        a.hash = "" → a.path ≠ "" → env.openRepo a.path = .ok repo →
        a.refName ≠ "" → repo.resolveRevision a.refName = some fromHash →
        loadMailmap env repo fromHash = .ok mm →
        filterCore env a = logStage repo
          { fromHash := fromHash, since := parseBound env a.start,
            until_ := parseBound env a.stop } mm) ∧
    (∀ (a : Args) (s : String), env.parseRFC3339 s = none →
        filterCore env { a with start := s } = filterCore env { a with start := "" } ∧
        filterCore env { a with stop := s } = filterCore env { a with stop := "" }) := by
  refine ⟨?_, ?_, fun v => rfl, fun v => rfl, ?_, ?_⟩
  · intro s t hs hp
    simp [parseBound, hs, hp]
  · intro s hp
    unfold parseBound
    split_ifs <;> simp [hp]
  · intro a repo fromHash mm hhash hpath hopen href hres hmm
    simp only [filterCore, if_neg hpath, hopen,
      if_neg (fun hne : a.hash ≠ "" => hne hhash), if_pos href, hres, hmm]
  · intro a s hp
    have hps : parseBound env s = none := by
      unfold parseBound; split_ifs <;> simp [hp]
    have hpe : parseBound env "" = none := by simp [parseBound]
    constructor
    · simp only [filterCore, hps, hpe]
    · simp only [filterCore, hps, hpe]

def repoC8 : Repo :=
  { resolveRevision := fun _ => some "h2"
    head := some "h2"
    commitObject := fun _ => none
    log := fun _ => .ok [] }

def envC8 : GitEnv :=
  { defaultRepoPath := .error "no default repo"
    openRepo := fun _ => .ok repoC8
    skipMailmap := true
    parseRFC3339 := fun s => if s = "2020-01-01T00:00:00Z" then some 1577836800 else none
    parseMailmap := fun _ => .error "unused" }

def argsC8 : Args :=
  { path := "/r", refName := "main", start := "2020-01-01T00:00:00Z", stop := "bad" }

/-- C8 witness: a parseable since-bound is installed, the unparseable
until-bound is dropped without error. -/
theorem filter_range_bound_parsing_witness :
    parseBound envC8 "2020-01-01T00:00:00Z" = some 1577836800 ∧
    parseBound envC8 "bad" = none ∧
    filterCore envC8 argsC8 = logStage repoC8
      { fromHash := "h2", since := parseBound envC8 argsC8.start,
        until_ := parseBound envC8 argsC8.stop } [] ∧
    filterCore envC8 { argsC8 with stop := "bad" }
      = filterCore envC8 { argsC8 with stop := "" } :=
  ⟨(filter_range_bound_parsing envC8).1 _ _ (by decide) rfl,
   (filter_range_bound_parsing envC8).2.1 "bad" rfl,
   (filter_range_bound_parsing envC8).2.2.2.2.1 argsC8 repoC8 "h2" []
     rfl (by decide) rfl (by decide) rfl rfl,
   ((filter_range_bound_parsing envC8).2.2.2.2.2 argsC8 "bad" rfl).2⟩

/-- C9: `Next` treats end-of-sequence and object-not-found as ordinary
exhaustion (no error, current commit unset so `Eof` reports true), while
any other iterator error is returned by `Next`; `Eof` is true exactly when
no current commit is held. -/
theorem next_exhaustion_policy (cur : Cursor) :
    (∀ rest, cur.iter = IterResult.eof :: rest →
        (cursorNext cur).2 = none ∧ cursorEof (cursorNext cur).1 = true) ∧
    (∀ rest, cur.iter = IterResult.notFound :: rest →
        (cursorNext cur).2 = none ∧ cursorEof (cursorNext cur).1 = true) ∧
    (cur.iter = [] →
        (cursorNext cur).2 = none ∧ cursorEof (cursorNext cur).1 = true) ∧
    (∀ e rest, cur.iter = IterResult.fail e :: rest → (cursorNext cur).2 = some e) ∧
    (cursorEof cur = true ↔ cur.commit = none) := by
  obtain ⟨commit, iter, mm⟩ := cur
  refine ⟨?_, ?_, ?_, ?_, ?_⟩
  · rintro rest rfl
    simp [cursorNext, cursorEof]
  · rintro rest rfl
    simp [cursorNext, cursorEof]
  · rintro rfl
    simp [cursorNext, cursorEof]
  · rintro e rest rfl
    simp [cursorNext]
  · simp [cursorEof, Option.isNone_iff_eq_none]

/-- C9 witness: end-of-sequence is silent exhaustion; a genuine iterator
failure is returned by `Next`. -/
theorem next_exhaustion_policy_witness :
    (cursorNext ⟨some commitAbc, [IterResult.eof], []⟩).2 = none ∧
    cursorEof (cursorNext ⟨some commitAbc, [IterResult.eof], []⟩).1 = true ∧
    (cursorNext ⟨none, [IterResult.fail "io"], []⟩).2 = some "io" :=
  ⟨((next_exhaustion_policy _).1 [] rfl).1,
   ((next_exhaustion_policy _).1 [] rfl).2,
   (next_exhaustion_policy _).2.2.2.1 "io" [] rfl⟩

end GitLog
